import Mathlib

/-!
# Interfaces: typed views of the kernel's interface constants

A verification development for the three C headers of the repository:

* `Sources/InterfaceType/include/InterfaceType.h`
* `Sources/FunctionalType/include/FunctionalType.h`
* `Sources/InterfaceFlags/include/InterfaceFlags.h`

The headers declare four enumerations (`InterfaceType`, `IOCTLRequest`,
`FunctionalType`, `InterfaceFlags`), each with a fixed underlying integer type
and with enumerators bound to macros of the platform headers `<net/if.h>`,
`<net/if_types.h>` and `<sys/sockio.h>`.  The platform macros are not part of
the repository, so the embedding takes them as a parameter (`PlatformHeaders`);
every enumerator is then defined as in the source, as the value of its macro
converted to the underlying type.  A value of an enumeration is its underlying
integer; conversion from and to the raw integer is the C cast, and the flag
values are combined and tested with the C operators `|`, `&` and `==`.
-/

namespace Interfaces

/-! ## Machine integers -/

/-- Conversion of an integer constant to `u_int32_t`. -/
def toUInt32 (n : Nat) : Nat := n % 2 ^ 32

/-- Conversion of an integer constant to `unsigned long`, which is 64 bits wide
on the platform (LP64). -/
def toULong (n : Nat) : Nat := n % 2 ^ 64

/-- Conversion of an integer to `int32_t` (two's complement wrap-around). -/
def toInt32 (z : Int) : Int := (z + 2 ^ 31) % 2 ^ 32 - 2 ^ 31

/-- The values of `int32_t`. -/
def IsInt32 (z : Int) : Prop := -(2 ^ 31) ≤ z ∧ z < 2 ^ 31

instance (z : Int) : Decidable (IsInt32 z) := by
  unfold IsInt32; exact inferInstance

/-! ## The platform macros -/

/-- The macros of the platform headers that the three header files refer to.
They are defined by `<net/if.h>` (`IFF_*`, `IFRTYPE_FUNCTIONAL_*`),
`<net/if_types.h>` (`IFT_*`) and `<sys/sockio.h>` (`SIOCGIFFUNCTIONALTYPE`),
outside the repository, and are therefore a parameter of the embedding. -/
structure PlatformHeaders where
  IFF_UP : Int
  IFF_BROADCAST : Int
  IFF_LOOPBACK : Int
  IFF_POINTOPOINT : Int
  IFF_NOTRAILERS : Int
  IFF_RUNNING : Int
  IFF_NOARP : Int
  IFF_PROMISC : Int
  IFF_ALLMULTI : Int
  IFF_SIMPLEX : Int
  IFF_ALTPHYS : Int
  IFF_MULTICAST : Int
  IFT_OTHER : Nat
  IFT_LOOP : Nat
  IFT_ETHER : Nat
  IFT_GIF : Nat
  IFT_STF : Nat
  IFT_L2VLAN : Nat
  IFT_IEEE8023ADLAG : Nat
  IFT_IEEE1394 : Nat
  IFT_BRIDGE : Nat
  IFRTYPE_FUNCTIONAL_UNKNOWN : Nat
  IFRTYPE_FUNCTIONAL_LOOPBACK : Nat
  IFRTYPE_FUNCTIONAL_WIRED : Nat
  IFRTYPE_FUNCTIONAL_WIFI_INFRA : Nat
  IFRTYPE_FUNCTIONAL_WIFI_AWDL : Nat
  IFRTYPE_FUNCTIONAL_CELLULAR : Nat
  IFRTYPE_FUNCTIONAL_INTCOPROC : Nat
  IFRTYPE_FUNCTIONAL_COMPANIONLINK : Nat
  IFRTYPE_FUNCTIONAL_MANAGEMENT : Nat
  IFRTYPE_FUNCTIONAL_LAST : Nat
  SIOCGIFFUNCTIONALTYPE : Nat

/-- Modelled from the spec: the values of the platform macros, which the
repository takes from `<net/if.h>`, `<net/if_types.h>` and `<sys/sockio.h>` and
which are missing from the sources.  The spec (sections 3 and 9) gives no
numbers of its own: it requires every constant to be the host operating
system's own header value, and the platform is Darwin (the
`IFRTYPE_FUNCTIONAL_*` family and `SIOCGIFFUNCTIONALTYPE` exist nowhere else).
The table takes the values of the Darwin headers, and follows the spec's words
where the spec fixes an order:

* `<net/if.h>`: `IFF_UP 0x1`, `IFF_BROADCAST 0x2`, `IFF_LOOPBACK 0x8`,
  `IFF_POINTOPOINT 0x10`, `IFF_NOTRAILERS 0x20`, `IFF_RUNNING 0x40`,
  `IFF_NOARP 0x80`, `IFF_PROMISC 0x100`, `IFF_ALLMULTI 0x200`,
  `IFF_SIMPLEX 0x800`, `IFF_ALTPHYS IFF_LINK2` with `IFF_LINK2 0x4000`,
  `IFF_MULTICAST 0x8000`;
* `<net/if_types.h>`: `IFT_OTHER 0x1`, `IFT_ETHER 0x6`, `IFT_LOOP 0x18`,
  `IFT_GIF 0x37`, `IFT_STF 0x39`, `IFT_L2VLAN 0x87`,
  `IFT_IEEE8023ADLAG 0x88`, `IFT_IEEE1394 0x90`, `IFT_BRIDGE 0xd1`;
* `<net/if.h>`: `IFRTYPE_FUNCTIONAL_UNKNOWN 0` up to
  `IFRTYPE_FUNCTIONAL_MANAGEMENT 8` in steps of one; for
  `IFRTYPE_FUNCTIONAL_LAST` the table follows the spec, which places `last`
  strictly above every other member (section 8): the next value, 9.  The
  entry is a concrete input for the witnesses; what is proved about `last`
  is proved for every value of the macro;
* `<sys/sockio.h>`: `SIOCGIFFUNCTIONALTYPE _IOWR('i', 173, struct ifreq)`,
  which is `0xC0000000 | (32 << 16) | ('i' << 8) | 173 = 0xC02069AD`. -/
def darwin : PlatformHeaders where
  IFF_UP := 0x1
  IFF_BROADCAST := 0x2
  IFF_LOOPBACK := 0x8
  IFF_POINTOPOINT := 0x10
  IFF_NOTRAILERS := 0x20
  IFF_RUNNING := 0x40
  IFF_NOARP := 0x80
  IFF_PROMISC := 0x100
  IFF_ALLMULTI := 0x200
  IFF_SIMPLEX := 0x800
  IFF_ALTPHYS := 0x4000
  IFF_MULTICAST := 0x8000
  IFT_OTHER := 0x1
  IFT_LOOP := 0x18
  IFT_ETHER := 0x6
  IFT_GIF := 0x37
  IFT_STF := 0x39
  IFT_L2VLAN := 0x87
  IFT_IEEE8023ADLAG := 0x88
  IFT_IEEE1394 := 0x90
  IFT_BRIDGE := 0xd1
  IFRTYPE_FUNCTIONAL_UNKNOWN := 0
  IFRTYPE_FUNCTIONAL_LOOPBACK := 1
  IFRTYPE_FUNCTIONAL_WIRED := 2
  IFRTYPE_FUNCTIONAL_WIFI_INFRA := 3
  IFRTYPE_FUNCTIONAL_WIFI_AWDL := 4
  IFRTYPE_FUNCTIONAL_CELLULAR := 5
  IFRTYPE_FUNCTIONAL_INTCOPROC := 6
  IFRTYPE_FUNCTIONAL_COMPANIONLINK := 7
  IFRTYPE_FUNCTIONAL_MANAGEMENT := 8
  IFRTYPE_FUNCTIONAL_LAST := 9
  SIOCGIFFUNCTIONALTYPE := 0xC02069AD

/-! ## `InterfaceType.h` -/

/-- A value of the C type `InterfaceType`: an enumeration over `u_int32_t`,
declared `enum_extensibility(open)`, so every `u_int32_t` is a value of it. -/
structure InterfaceType where
  rawValue : Nat
deriving DecidableEq, Repr

namespace InterfaceType

/-- The enumerators of `InterfaceType`, in the order of the declaration. -/
inductive Enumerator where
  | other
  | loopback
  | ethernet
  | gif
  | stf
  | vlan
  | linkAggregate
  | fireware
  | bridge
deriving DecidableEq, Repr

/-- The macro each enumerator is bound to (`other = IFT_OTHER`, ...). -/
def Enumerator.macroValue (p : PlatformHeaders) : Enumerator → Nat
  | .other => p.IFT_OTHER
  | .loopback => p.IFT_LOOP
  | .ethernet => p.IFT_ETHER
  | .gif => p.IFT_GIF
  | .stf => p.IFT_STF
  | .vlan => p.IFT_L2VLAN
  | .linkAggregate => p.IFT_IEEE8023ADLAG
  | .fireware => p.IFT_IEEE1394
  | .bridge => p.IFT_BRIDGE

/-- All enumerators, in declaration order. -/
def Enumerator.all : List Enumerator :=
  [.other, .loopback, .ethernet, .gif, .stf, .vlan, .linkAggregate, .fireware, .bridge]

/-- The conversion `(InterfaceType)n` of a raw integer. -/
def ofRaw (n : Nat) : InterfaceType := ⟨toUInt32 n⟩

/-- The enumeration constant: the macro's value in the underlying type. -/
def const (p : PlatformHeaders) (e : Enumerator) : InterfaceType :=
  ofRaw (e.macroValue p)

/-- The C comparison `a == b` of two values of the enumeration. -/
def beq (a b : InterfaceType) : Bool := a.rawValue == b.rawValue

/-- The enumerators a value compares equal to (its names); empty for a code
that no enumerator has. -/
def names (p : PlatformHeaders) (v : InterfaceType) : List Enumerator :=
  Enumerator.all.filter (fun e => beq v (const p e))

end InterfaceType

/-! ## `FunctionalType.h` -/

/-- A value of the C type `IOCTLRequest`: the `request` argument of `ioctl`, an
open enumeration over `unsigned long`. -/
structure IOCTLRequest where
  rawValue : Nat
deriving DecidableEq, Repr

namespace IOCTLRequest

/-- The enumerators of `IOCTLRequest`. -/
inductive Enumerator where
  | functionalType
deriving DecidableEq, Repr

/-- The macro the enumerator is bound to
(`functionalType = SIOCGIFFUNCTIONALTYPE`). -/
def Enumerator.macroValue (p : PlatformHeaders) : Enumerator → Nat
  | .functionalType => p.SIOCGIFFUNCTIONALTYPE

/-- All enumerators, in declaration order. -/
def Enumerator.all : List Enumerator := [.functionalType]

/-- The conversion `(IOCTLRequest)n` of a raw integer. -/
def ofRaw (n : Nat) : IOCTLRequest := ⟨toULong n⟩

/-- The enumeration constant: the macro's value in the underlying type. -/
def const (p : PlatformHeaders) (e : Enumerator) : IOCTLRequest :=
  ofRaw (e.macroValue p)

end IOCTLRequest

/-- A value of the C type `FunctionalType`: an enumeration over `u_int32_t`,
declared `enum_extensibility(open)`, so every `u_int32_t` is a value of it. -/
structure FunctionalType where
  rawValue : Nat
deriving DecidableEq, Repr

namespace FunctionalType

/-- The enumerators of `FunctionalType`, in the order of the declaration. -/
inductive Enumerator where
  | unknown
  | loopback
  | wired
  | wifiInfra
  | wifiAWDL
  | cellular
  | intcoproc
  | companionLink
  | management
  | last
deriving DecidableEq, Repr

/-- The macro each enumerator is bound to
(`unknown = IFRTYPE_FUNCTIONAL_UNKNOWN`, ...). -/
def Enumerator.macroValue (p : PlatformHeaders) : Enumerator → Nat
  | .unknown => p.IFRTYPE_FUNCTIONAL_UNKNOWN
  | .loopback => p.IFRTYPE_FUNCTIONAL_LOOPBACK
  | .wired => p.IFRTYPE_FUNCTIONAL_WIRED
  | .wifiInfra => p.IFRTYPE_FUNCTIONAL_WIFI_INFRA
  | .wifiAWDL => p.IFRTYPE_FUNCTIONAL_WIFI_AWDL
  | .cellular => p.IFRTYPE_FUNCTIONAL_CELLULAR
  | .intcoproc => p.IFRTYPE_FUNCTIONAL_INTCOPROC
  | .companionLink => p.IFRTYPE_FUNCTIONAL_COMPANIONLINK
  | .management => p.IFRTYPE_FUNCTIONAL_MANAGEMENT
  | .last => p.IFRTYPE_FUNCTIONAL_LAST

/-- All enumerators, in declaration order. -/
def Enumerator.all : List Enumerator :=
  [.unknown, .loopback, .wired, .wifiInfra, .wifiAWDL, .cellular, .intcoproc,
   .companionLink, .management, .last]

/-- The conversion `(FunctionalType)n` of a raw integer. -/
def ofRaw (n : Nat) : FunctionalType := ⟨toUInt32 n⟩

/-- The enumeration constant: the macro's value in the underlying type. -/
def const (p : PlatformHeaders) (e : Enumerator) : FunctionalType :=
  ofRaw (e.macroValue p)

/-- The C comparison `a == b` of two values of the enumeration. -/
def beq (a b : FunctionalType) : Bool := a.rawValue == b.rawValue

/-- The enumerators a value compares equal to (its names); empty for a code
that no enumerator has. -/
def names (p : PlatformHeaders) (v : FunctionalType) : List Enumerator :=
  Enumerator.all.filter (fun e => beq v (const p e))

end FunctionalType

/-! ## `InterfaceFlags.h` -/

/-- A value of the C type `InterfaceFlags`: a `flag_enum` enumeration over
`int32_t`; its values are combined and tested with the bitwise operators. -/
structure InterfaceFlags where
  rawValue : Int
deriving DecidableEq, Repr

namespace InterfaceFlags

/-- The enumerators of `InterfaceFlags`, in the order of the declaration. -/
inductive Enumerator where
  | up
  | broadcast
  | loopback
  | pointopoint
  | smart
  | running
  | noarp
  | promisc
  | allmulti
  | simplex
  | altphys
  | multicast
deriving DecidableEq, Repr

/-- The macro each enumerator is bound to (`up = IFF_UP`, ...,
`smart = IFF_NOTRAILERS`, ...). -/
def Enumerator.macroValue (p : PlatformHeaders) : Enumerator → Int
  | .up => p.IFF_UP
  | .broadcast => p.IFF_BROADCAST
  | .loopback => p.IFF_LOOPBACK
  | .pointopoint => p.IFF_POINTOPOINT
  | .smart => p.IFF_NOTRAILERS
  | .running => p.IFF_RUNNING
  | .noarp => p.IFF_NOARP
  | .promisc => p.IFF_PROMISC
  | .allmulti => p.IFF_ALLMULTI
  | .simplex => p.IFF_SIMPLEX
  | .altphys => p.IFF_ALTPHYS
  | .multicast => p.IFF_MULTICAST

/-- All enumerators, in declaration order. -/
def Enumerator.all : List Enumerator :=
  [.up, .broadcast, .loopback, .pointopoint, .smart, .running, .noarp, .promisc,
   .allmulti, .simplex, .altphys, .multicast]

/-- The conversion `(InterfaceFlags)f` of a raw integer. -/
def ofRaw (f : Int) : InterfaceFlags := ⟨toInt32 f⟩

/-- The conversion `(int32_t)v` back to the raw integer. -/
def toRaw (v : InterfaceFlags) : Int := v.rawValue

/-- The enumeration constant: the macro's value in the underlying type. -/
def const (p : PlatformHeaders) (e : Enumerator) : InterfaceFlags :=
  ofRaw (e.macroValue p)

/-- The C expression `a | b` on two flag values, as a flags value. -/
def union (a b : InterfaceFlags) : InterfaceFlags :=
  ofRaw (Int.lor a.rawValue b.rawValue)

/-- The C expression `a & b` on two flag values, as a flags value. -/
def intersection (a b : InterfaceFlags) : InterfaceFlags :=
  ofRaw (Int.land a.rawValue b.rawValue)

/-- The membership test `(v & x) == x`. -/
def contains (v x : InterfaceFlags) : Bool :=
  (intersection v x).rawValue == x.rawValue

/-- The enumerators set in a flags value. -/
def setFlags (p : PlatformHeaders) (v : InterfaceFlags) : List Enumerator :=
  Enumerator.all.filter (fun e => contains v (const p e))

end InterfaceFlags

/-! ## Theorems -/

/-! ### Conversions to the underlying types -/

theorem toUInt32_of_lt {n : Nat} (h : n < 2 ^ 32) : toUInt32 n = n :=
  Nat.mod_eq_of_lt h

theorem toUInt32_le (n : Nat) : toUInt32 n ≤ n :=
  Nat.mod_le n _

theorem toUInt32_lt (n : Nat) : toUInt32 n < 2 ^ 32 :=
  Nat.mod_lt n (by norm_num)

theorem toInt32_of_isInt32 {z : Int} (h : IsInt32 z) : toInt32 z = z := by
  obtain ⟨h1, h2⟩ := h
  unfold toInt32
  rw [Int.emod_eq_of_lt (by omega) (by omega)]
  omega

theorem isInt32_toInt32 (z : Int) : IsInt32 (toInt32 z) := by
  unfold IsInt32 toInt32
  have h1 : 0 ≤ (z + 2 ^ 31) % 2 ^ 32 := Int.emod_nonneg _ (by norm_num)
  have h2 : (z + 2 ^ 31) % 2 ^ 32 < 2 ^ 32 := Int.emod_lt_of_pos _ (by norm_num)
  constructor <;> omega

/-! ### `InterfaceType` -/

theorem interfaceType_mem_all (e : InterfaceType.Enumerator) :
    e ∈ InterfaceType.Enumerator.all := by
  cases e <;> simp [InterfaceType.Enumerator.all]

theorem interfaceType_eq_of_rawValue_eq {a b : InterfaceType}
    (h : a.rawValue = b.rawValue) : a = b := by
  cases a; cases b; simp_all

theorem interfaceType_beq_iff (a b : InterfaceType) :
    InterfaceType.beq a b = true ↔ a.rawValue = b.rawValue := by
  simp [InterfaceType.beq]

theorem interfaceType_mem_names (p : PlatformHeaders) (v : InterfaceType)
    (e : InterfaceType.Enumerator) :
    e ∈ InterfaceType.names p v ↔ v.rawValue = (InterfaceType.const p e).rawValue := by
  simp [InterfaceType.names, interfaceType_mem_all, interfaceType_beq_iff]

theorem interfaceType_names_const_of_injective (p : PlatformHeaders)
    (hinj : Function.Injective (InterfaceType.const p)) (e : InterfaceType.Enumerator) :
    InterfaceType.names p (InterfaceType.const p e) = [e] := by
  have hb : (fun e1 => InterfaceType.beq (InterfaceType.const p e) (InterfaceType.const p e1))
      = fun e1 => decide (e = e1) := by
    funext e1
    by_cases h : e = e1
    · subst h; simp [InterfaceType.beq]
    · have hne : InterfaceType.const p e ≠ InterfaceType.const p e1 := fun hc => h (hinj hc)
      have hr : (InterfaceType.const p e).rawValue ≠ (InterfaceType.const p e1).rawValue :=
        fun hc => hne (interfaceType_eq_of_rawValue_eq hc)
      simp [InterfaceType.beq, h, hr]
  unfold InterfaceType.names
  rw [hb]
  cases e <;> decide

theorem interfaceType_darwin_injective : Function.Injective (InterfaceType.const darwin) := by
  intro a b h
  cases a <;> cases b <;> first | rfl | (exact absurd h (by decide))

/-- C1. For every unsigned 32-bit integer `n` the conversion `(InterfaceType)n`
yields a value whose underlying code is `n`; when `n` is the numeric value of a
defined member, that member is a name of the result (the only one when the
members have pairwise different values), in particular the ethernet constant
yields `ethernet`; when `n` is the value of no member the result has no name and
still carries `n`. -/
theorem interfaceType_ofRaw_classifies (p : PlatformHeaders) (n : Nat) (hn : n < 2 ^ 32) :
    (InterfaceType.ofRaw n).rawValue = n ∧
    (∀ e, n = (InterfaceType.const p e).rawValue →
      e ∈ InterfaceType.names p (InterfaceType.ofRaw n) ∧
      (Function.Injective (InterfaceType.const p) →
        InterfaceType.names p (InterfaceType.ofRaw n) = [e])) ∧
    ((∀ e, n ≠ (InterfaceType.const p e).rawValue) →
      InterfaceType.names p (InterfaceType.ofRaw n) = [] ∧
      (InterfaceType.ofRaw n).rawValue = n) ∧
    InterfaceType.Enumerator.ethernet ∈
      InterfaceType.names p (InterfaceType.ofRaw (toUInt32 p.IFT_ETHER)) := by
  have hraw : (InterfaceType.ofRaw n).rawValue = n := toUInt32_of_lt hn
  refine ⟨hraw, ?_, ?_, ?_⟩
  · intro e he
    refine ⟨(interfaceType_mem_names p _ e).2 (hraw.trans he), ?_⟩
    intro hinj
    have hv : InterfaceType.ofRaw n = InterfaceType.const p e :=
      interfaceType_eq_of_rawValue_eq (hraw.trans he)
    rw [hv]
    exact interfaceType_names_const_of_injective p hinj e
  · intro hne
    refine ⟨?_, hraw⟩
    apply List.eq_nil_iff_forall_not_mem.2
    intro e he
    exact hne e (hraw.symm.trans ((interfaceType_mem_names p _ e).1 he))
  · rw [interfaceType_mem_names]
    simp [InterfaceType.const, InterfaceType.ofRaw, InterfaceType.Enumerator.macroValue,
      toUInt32]

/-- Witness for C1 on the Darwin header values: the code 6 is `ethernet` and
nothing else, the code 7 has no name. -/
theorem interfaceType_ofRaw_classifies_witness :
    InterfaceType.names darwin (InterfaceType.ofRaw 6) = [InterfaceType.Enumerator.ethernet] ∧
    (InterfaceType.names darwin (InterfaceType.ofRaw 7) = [] ∧
      (InterfaceType.ofRaw 7).rawValue = 7) :=
  ⟨((interfaceType_ofRaw_classifies darwin 6 (by norm_num)).2.1 .ethernet (by decide)).2
      interfaceType_darwin_injective,
   (interfaceType_ofRaw_classifies darwin 7 (by norm_num)).2.2.1
      (by intro e; cases e <;> decide)⟩

/-! ### `FunctionalType` -/

theorem functionalType_mem_all (e : FunctionalType.Enumerator) :
    e ∈ FunctionalType.Enumerator.all := by
  cases e <;> simp [FunctionalType.Enumerator.all]

theorem functionalType_eq_of_rawValue_eq {a b : FunctionalType}
    (h : a.rawValue = b.rawValue) : a = b := by
  cases a; cases b; simp_all

theorem functionalType_beq_iff (a b : FunctionalType) :
    FunctionalType.beq a b = true ↔ a.rawValue = b.rawValue := by
  simp [FunctionalType.beq]

theorem functionalType_mem_names (p : PlatformHeaders) (v : FunctionalType)
    (e : FunctionalType.Enumerator) :
    e ∈ FunctionalType.names p v ↔ v.rawValue = (FunctionalType.const p e).rawValue := by
  simp [FunctionalType.names, functionalType_mem_all, functionalType_beq_iff]

theorem functionalType_rawValue_const_le (p : PlatformHeaders) (e : FunctionalType.Enumerator) :
    (FunctionalType.const p e).rawValue ≤ e.macroValue p :=
  toUInt32_le _

theorem functionalType_darwin_le_last (e : FunctionalType.Enumerator) :
    e.macroValue darwin ≤ FunctionalType.Enumerator.last.macroValue darwin := by
  cases e <;> decide

theorem functionalType_names_const_of_injective (p : PlatformHeaders)
    (hinj : Function.Injective (FunctionalType.const p)) (e : FunctionalType.Enumerator) :
    FunctionalType.names p (FunctionalType.const p e) = [e] := by
  have hb : (fun e1 => FunctionalType.beq (FunctionalType.const p e) (FunctionalType.const p e1))
      = fun e1 => decide (e = e1) := by
    funext e1
    by_cases h : e = e1
    · subst h; simp [FunctionalType.beq]
    · have hne : FunctionalType.const p e ≠ FunctionalType.const p e1 := fun hc => h (hinj hc)
      have hr : (FunctionalType.const p e).rawValue ≠ (FunctionalType.const p e1).rawValue :=
        fun hc => hne (functionalType_eq_of_rawValue_eq hc)
      simp [FunctionalType.beq, h, hr]
  unfold FunctionalType.names
  rw [hb]
  cases e <;> decide

theorem functionalType_darwin_injective : Function.Injective (FunctionalType.const darwin) := by
  intro a b h
  cases a <;> cases b <;> first | rfl | (exact absurd h (by decide))

/-- C2. For every unsigned 32-bit integer `n` the conversion `(FunctionalType)n`
yields a value whose underlying code is `n`, and the names of the result are
exactly the members whose numeric value is `n`.  So when `n` is the numeric
value of a defined member (`last` included), the result equals the member's
constant and has that member as name, and as its only name when the members
have pairwise different values; when `n` is the value of no member the result
has no name and carries `n`.  This is the case of `last + 1` whenever `last` is
the highest value among the members. -/
theorem functionalType_ofRaw_classifies (p : PlatformHeaders) (n : Nat) (hn : n < 2 ^ 32) :
    (FunctionalType.ofRaw n).rawValue = n ∧
    (∀ e, e ∈ FunctionalType.names p (FunctionalType.ofRaw n) ↔
      n = (FunctionalType.const p e).rawValue) ∧
    (∀ e, n = (FunctionalType.const p e).rawValue →
      e ∈ FunctionalType.names p (FunctionalType.ofRaw n) ∧
      FunctionalType.ofRaw n = FunctionalType.const p e ∧
      (Function.Injective (FunctionalType.const p) →
        FunctionalType.names p (FunctionalType.ofRaw n) = [e])) ∧
    ((∀ e, n ≠ (FunctionalType.const p e).rawValue) →
      FunctionalType.names p (FunctionalType.ofRaw n) = [] ∧
      (FunctionalType.ofRaw n).rawValue = n) ∧
    ((∀ e : FunctionalType.Enumerator,
        e.macroValue p ≤ FunctionalType.Enumerator.last.macroValue p) →
      n = FunctionalType.Enumerator.last.macroValue p + 1 →
      FunctionalType.names p (FunctionalType.ofRaw n) = [] ∧
      (FunctionalType.ofRaw n).rawValue = n) := by
  have hraw : (FunctionalType.ofRaw n).rawValue = n := toUInt32_of_lt hn
  have hnil : (∀ e, n ≠ (FunctionalType.const p e).rawValue) →
      FunctionalType.names p (FunctionalType.ofRaw n) = [] := by
    intro hne
    apply List.eq_nil_iff_forall_not_mem.2
    intro e he
    exact hne e (hraw.symm.trans ((functionalType_mem_names p _ e).1 he))
  refine ⟨hraw, ?_, ?_, ?_, ?_⟩
  · intro e
    rw [functionalType_mem_names, hraw]
  · intro e he
    have hv : FunctionalType.ofRaw n = FunctionalType.const p e :=
      functionalType_eq_of_rawValue_eq (hraw.trans he)
    refine ⟨(functionalType_mem_names p _ e).2 (hraw.trans he), hv, ?_⟩
    intro hinj
    rw [hv]
    exact functionalType_names_const_of_injective p hinj e
  · intro hne
    exact ⟨hnil hne, hraw⟩
  · intro hmax hlast
    refine ⟨hnil ?_, hraw⟩
    intro e he
    have h1 := functionalType_rawValue_const_le p e
    have h2 := hmax e
    omega

/-- Witness for C2 on the modelled header values: the code 5 is `cellular` and
nothing else, the code 10 (one more than `last`) has no name and is carried as
10. -/
theorem functionalType_ofRaw_classifies_witness :
    FunctionalType.names darwin (FunctionalType.ofRaw 5) =
      [FunctionalType.Enumerator.cellular] ∧
    (FunctionalType.names darwin (FunctionalType.ofRaw 10) = [] ∧
      (FunctionalType.ofRaw 10).rawValue = 10) :=
  ⟨((functionalType_ofRaw_classifies darwin 5 (by norm_num)).2.2.1 .cellular
      (by decide)).2.2 functionalType_darwin_injective,
   (functionalType_ofRaw_classifies darwin 10 (by norm_num)).2.2.2.2
      functionalType_darwin_le_last (by decide)⟩

/-- C4, as stated, fails: on the modelled header values the code 9 converts to
a value that is the `last` constant and has `last` as its name, and the claim
fails in the same way whatever the value of `IFRTYPE_FUNCTIONAL_LAST`, whose
code always converts to `last`. -/
theorem functionalType_ofRaw_can_be_last :
    FunctionalType.beq (FunctionalType.ofRaw 9) (FunctionalType.const darwin .last) = true ∧
    FunctionalType.names darwin (FunctionalType.ofRaw 9) =
      [FunctionalType.Enumerator.last] ∧
    ¬ (∃ p : PlatformHeaders, ∀ n : Nat, n < 2 ^ 32 →
        FunctionalType.beq (FunctionalType.ofRaw n) (FunctionalType.const p .last) = false) := by
  refine ⟨by decide, by decide, ?_⟩
  rintro ⟨p, h⟩
  have hl := h (toUInt32 p.IFRTYPE_FUNCTIONAL_LAST) (toUInt32_lt _)
  have ht : FunctionalType.beq (FunctionalType.ofRaw (toUInt32 p.IFRTYPE_FUNCTIONAL_LAST))
      (FunctionalType.const p .last) = true := by
    rw [functionalType_beq_iff]
    show toUInt32 (toUInt32 p.IFRTYPE_FUNCTIONAL_LAST) = toUInt32 p.IFRTYPE_FUNCTIONAL_LAST
    exact toUInt32_of_lt (toUInt32_lt _)
  rw [ht] at hl
  exact absurd hl (by decide)

/-- C4, amended. The conversion filters nothing: for every unsigned 32-bit code
`n`, the converted value is the `last` constant exactly when `n` is the value of
`IFRTYPE_FUNCTIONAL_LAST` in the underlying type, and it then has `last` among
its names. -/
theorem functionalType_ofRaw_eq_last_iff (p : PlatformHeaders) (n : Nat) (hn : n < 2 ^ 32) :
    (FunctionalType.beq (FunctionalType.ofRaw n) (FunctionalType.const p .last) = true ↔
      n = toUInt32 p.IFRTYPE_FUNCTIONAL_LAST) ∧
    (FunctionalType.Enumerator.last ∈ FunctionalType.names p (FunctionalType.ofRaw n) ↔
      n = toUInt32 p.IFRTYPE_FUNCTIONAL_LAST) := by
  have hraw : (FunctionalType.ofRaw n).rawValue = n := toUInt32_of_lt hn
  have hl : (FunctionalType.const p .last).rawValue = toUInt32 p.IFRTYPE_FUNCTIONAL_LAST := rfl
  constructor
  · rw [functionalType_beq_iff, hraw, hl]
  · rw [functionalType_mem_names, hraw, hl]

/-- Witness for the amended C4 on the modelled header values, at the code 9. -/
theorem functionalType_ofRaw_eq_last_iff_witness :
    FunctionalType.beq (FunctionalType.ofRaw 9) (FunctionalType.const darwin .last) = true :=
  (functionalType_ofRaw_eq_last_iff darwin 9 (by norm_num)).1.2 (by decide)

/-! ### Bitwise operations on integers -/

theorem ldiff_lt_two_pow {m : Nat} (n : Nat) {w : Nat} (hm : m < 2 ^ w) :
    Nat.ldiff m n < 2 ^ w := by
  apply Nat.lt_pow_two_of_testBit
  intro i hi
  have hmi : m.testBit i = false :=
    Nat.testBit_lt_two_pow (lt_of_lt_of_le hm (Nat.pow_le_pow_right (by norm_num) hi))
  simp [Nat.testBit_ldiff, hmi]

theorem ldiff_two_pow_eq_iff (m k : Nat) :
    Nat.ldiff (2 ^ k) m = 2 ^ k ↔ m.testBit k = false := by
  constructor
  · intro h
    have := congrArg (fun x => Nat.testBit x k) h
    simpa [Nat.testBit_ldiff, Nat.testBit_two_pow] using this
  · intro h
    apply Nat.eq_of_testBit_eq
    intro i
    by_cases hki : k = i
    · subst hki; simp [Nat.testBit_ldiff, Nat.testBit_two_pow, h]
    · simp [Nat.testBit_ldiff, Nat.testBit_two_pow, hki]

theorem nat_land_two_pow_eq_iff (m k : Nat) :
    m &&& 2 ^ k = 2 ^ k ↔ m.testBit k = true := by
  have hpos := Nat.two_pow_pos k
  rw [Nat.and_two_pow]
  cases h : m.testBit k
  · simp; omega
  · simp

theorem int_land_two_pow_eq_iff (f : Int) (k : Nat) :
    Int.land f (2 ^ k) = 2 ^ k ↔ f.testBit k = true := by
  have hc : ((2 : Int) ^ k) = ((2 ^ k : Nat) : Int) := by push_cast; rfl
  rw [hc]
  cases f with
  | ofNat m =>
    show (((m &&& 2 ^ k : Nat)) : Int) = ((2 ^ k : Nat) : Int) ↔ Nat.testBit m k = true
    rw [Int.natCast_inj]
    exact nat_land_two_pow_eq_iff m k
  | negSucc m =>
    show ((Nat.ldiff (2 ^ k) m : Nat) : Int) = ((2 ^ k : Nat) : Int) ↔ (!Nat.testBit m k) = true
    rw [Int.natCast_inj, ldiff_two_pow_eq_iff]
    simp

theorem isInt32_ofNat_iff (m : Nat) : IsInt32 (Int.ofNat m) ↔ m < 2 ^ 31 := by
  unfold IsInt32
  constructor
  · intro h; have := h.2; simp at this; exact_mod_cast this
  · intro h; constructor
    · simp; omega
    · simp; exact_mod_cast h

theorem isInt32_negSucc_iff (m : Nat) : IsInt32 (Int.negSucc m) ↔ m < 2 ^ 31 := by
  unfold IsInt32
  rw [Int.negSucc_eq]
  constructor
  · intro h; have := h.1; omega
  · intro h; constructor <;> omega

theorem isInt32_land {a b : Int} (ha : IsInt32 a) (hb : IsInt32 b) : IsInt32 (Int.land a b) := by
  cases a with
  | ofNat m =>
    cases b with
    | ofNat n =>
      rw [isInt32_ofNat_iff] at ha
      show IsInt32 (Int.ofNat (m &&& n))
      rw [isInt32_ofNat_iff]
      exact lt_of_le_of_lt Nat.and_le_left ha
    | negSucc n =>
      rw [isInt32_ofNat_iff] at ha
      show IsInt32 (Int.ofNat (Nat.ldiff m n))
      rw [isInt32_ofNat_iff]
      exact ldiff_lt_two_pow n ha
  | negSucc m =>
    cases b with
    | ofNat n =>
      rw [isInt32_ofNat_iff] at hb
      show IsInt32 (Int.ofNat (Nat.ldiff n m))
      rw [isInt32_ofNat_iff]
      exact ldiff_lt_two_pow m hb
    | negSucc n =>
      rw [isInt32_negSucc_iff] at ha hb
      show IsInt32 (Int.negSucc (m ||| n))
      rw [isInt32_negSucc_iff]
      exact Nat.or_lt_two_pow ha hb

theorem isInt32_lor {a b : Int} (ha : IsInt32 a) (hb : IsInt32 b) : IsInt32 (Int.lor a b) := by
  cases a with
  | ofNat m =>
    cases b with
    | ofNat n =>
      rw [isInt32_ofNat_iff] at ha hb
      show IsInt32 (Int.ofNat (m ||| n))
      rw [isInt32_ofNat_iff]
      exact Nat.or_lt_two_pow ha hb
    | negSucc n =>
      rw [isInt32_negSucc_iff] at hb
      show IsInt32 (Int.negSucc (Nat.ldiff n m))
      rw [isInt32_negSucc_iff]
      exact ldiff_lt_two_pow m hb
  | negSucc m =>
    cases b with
    | ofNat n =>
      rw [isInt32_negSucc_iff] at ha
      show IsInt32 (Int.negSucc (Nat.ldiff m n))
      rw [isInt32_negSucc_iff]
      exact ldiff_lt_two_pow n ha
    | negSucc n =>
      rw [isInt32_negSucc_iff] at ha hb
      show IsInt32 (Int.negSucc (m &&& n))
      rw [isInt32_negSucc_iff]
      exact lt_of_le_of_lt Nat.and_le_left ha

theorem int_eq_of_testBit_eq {a b : Int} (h : ∀ i, a.testBit i = b.testBit i) : a = b := by
  have hbig : ∀ m n : Nat, Nat.testBit m (m + n) = false ∧ Nat.testBit n (m + n) = false := by
    intro m n
    constructor
    · exact Nat.testBit_lt_two_pow
        (lt_of_lt_of_le (Nat.lt_two_pow m)
          (Nat.pow_le_pow_right (by norm_num) (Nat.le_add_right m n)))
    · exact Nat.testBit_lt_two_pow
        (lt_of_lt_of_le (Nat.lt_two_pow n)
          (Nat.pow_le_pow_right (by norm_num) (Nat.le_add_left n m)))
  cases a with
  | ofNat m =>
    cases b with
    | ofNat n =>
      have : m = n := Nat.eq_of_testBit_eq h
      rw [this]
    | negSucc n =>
      have hi : Nat.testBit m (m + n) = !Nat.testBit n (m + n) := h (m + n)
      rw [(hbig m n).1, (hbig m n).2] at hi
      exact absurd hi (by decide)
  | negSucc m =>
    cases b with
    | ofNat n =>
      have hi : (!Nat.testBit m (m + n)) = Nat.testBit n (m + n) := h (m + n)
      rw [(hbig m n).1, (hbig m n).2] at hi
      exact absurd hi (by decide)
    | negSucc n =>
      have : m = n := by
        apply Nat.eq_of_testBit_eq
        intro i
        have hi : (!Nat.testBit m i) = !Nat.testBit n i := h i
        cases hm : Nat.testBit m i <;> cases hn : Nat.testBit n i <;> simp_all
      rw [this]

theorem int_land_lor_left (a b : Int) : Int.land (Int.lor a b) a = a := by
  apply int_eq_of_testBit_eq
  intro i
  rw [Int.testBit_land, Int.testBit_lor]
  cases a.testBit i <;> cases b.testBit i <;> rfl

theorem int_land_lor_right (a b : Int) : Int.land (Int.lor a b) b = b := by
  apply int_eq_of_testBit_eq
  intro i
  rw [Int.testBit_land, Int.testBit_lor]
  cases a.testBit i <;> cases b.testBit i <;> rfl

theorem int_testBit_two_pow (k i : Nat) : Int.testBit ((2 : Int) ^ k) i = decide (k = i) := by
  have hc : ((2 : Int) ^ k) = ((2 ^ k : Nat) : Int) := by push_cast; rfl
  rw [hc]
  show Nat.testBit (2 ^ k) i = decide (k = i)
  exact Nat.testBit_two_pow

theorem isInt32_two_pow {k : Nat} (hk : k < 31) : IsInt32 ((2 : Int) ^ k) := by
  have h1 : (0 : Int) < 2 ^ k := by positivity
  have h2 : (2 : Int) ^ k < 2 ^ 31 := pow_lt_pow_right₀ (by norm_num) hk
  constructor <;> omega

/-! ### `InterfaceFlags` -/

theorem interfaceFlags_rawValue_ofRaw {f : Int} (hf : IsInt32 f) :
    (InterfaceFlags.ofRaw f).rawValue = f :=
  toInt32_of_isInt32 hf

theorem interfaceFlags_isInt32_rawValue_const (p : PlatformHeaders)
    (x : InterfaceFlags.Enumerator) : IsInt32 (InterfaceFlags.const p x).rawValue :=
  isInt32_toInt32 _

theorem interfaceFlags_rawValue_union {a b : InterfaceFlags} (ha : IsInt32 a.rawValue)
    (hb : IsInt32 b.rawValue) :
    (InterfaceFlags.union a b).rawValue = Int.lor a.rawValue b.rawValue :=
  toInt32_of_isInt32 (isInt32_lor ha hb)

theorem interfaceFlags_contains_iff {v x : InterfaceFlags} (hv : IsInt32 v.rawValue)
    (hx : IsInt32 x.rawValue) :
    InterfaceFlags.contains v x = true ↔ Int.land v.rawValue x.rawValue = x.rawValue := by
  unfold InterfaceFlags.contains InterfaceFlags.intersection InterfaceFlags.ofRaw
  rw [toInt32_of_isInt32 (isInt32_land hv hx)]
  simp

/-- C5. For every raw signed 32-bit flags integer `f`, converting `f` to an
`InterfaceFlags` value and back to the raw integer yields `f`: every bit of the
result, defined or not, is the bit of `f`. -/
theorem interfaceFlags_roundtrip (f : Int) (hf : IsInt32 f) :
    InterfaceFlags.toRaw (InterfaceFlags.ofRaw f) = f ∧
    ∀ i : Nat, Int.testBit (InterfaceFlags.toRaw (InterfaceFlags.ofRaw f)) i = Int.testBit f i := by
  have h : InterfaceFlags.toRaw (InterfaceFlags.ofRaw f) = f :=
    interfaceFlags_rawValue_ofRaw hf
  exact ⟨h, fun i => by rw [h]⟩

/-- Witness for C5 at the raw value with every bit set (`-1`). -/
theorem interfaceFlags_roundtrip_witness :
    IsInt32 (-1) ∧ InterfaceFlags.toRaw (InterfaceFlags.ofRaw (-1)) = -1 :=
  ⟨by decide, (interfaceFlags_roundtrip (-1) (by decide)).1⟩

theorem interfaceFlags_contains_two_pow_iff {v x : InterfaceFlags} (hv : IsInt32 v.rawValue)
    {k : Nat} (hk : k < 31) (hx : x.rawValue = 2 ^ k) :
    InterfaceFlags.contains v x = true ↔ Int.testBit v.rawValue k = true := by
  have hxr : IsInt32 x.rawValue := by rw [hx]; exact isInt32_two_pow hk
  rw [interfaceFlags_contains_iff hv hxr, hx]
  exact int_land_two_pow_eq_iff _ k

theorem interfaceFlags_rawValue_const_two_pow (p : PlatformHeaders)
    (x : InterfaceFlags.Enumerator) {k : Nat} (hk : k < 31) (hx : x.macroValue p = 2 ^ k) :
    (InterfaceFlags.const p x).rawValue = 2 ^ k := by
  unfold InterfaceFlags.const
  rw [hx]
  exact interfaceFlags_rawValue_ofRaw (isInt32_two_pow hk)

theorem interfaceFlags_contains_union_two_pow {v a b : InterfaceFlags}
    (hv : IsInt32 v.rawValue) {k1 k2 : Nat} (h1 : k1 < 31) (h2 : k2 < 31)
    (ha : a.rawValue = 2 ^ k1) (hb : b.rawValue = 2 ^ k2) (hne : k1 ≠ k2) :
    InterfaceFlags.contains (InterfaceFlags.union v a) b = InterfaceFlags.contains v b := by
  have har : IsInt32 a.rawValue := by rw [ha]; exact isInt32_two_pow h1
  have hu : (InterfaceFlags.union v a).rawValue = Int.lor v.rawValue a.rawValue :=
    interfaceFlags_rawValue_union hv har
  have hur : IsInt32 (InterfaceFlags.union v a).rawValue := by
    rw [hu]; exact isInt32_lor hv har
  rw [Bool.eq_iff_iff, interfaceFlags_contains_two_pow_iff hur h2 hb,
    interfaceFlags_contains_two_pow_iff hv h2 hb, hu, Int.testBit_lor, ha,
    int_testBit_two_pow]
  simp [hne]

theorem interfaceFlags_darwin_single_bit (e : InterfaceFlags.Enumerator) :
    ∃ k : Nat, k < 31 ∧ (InterfaceFlags.const darwin e).rawValue = 2 ^ k := by
  cases e
  · exact ⟨0, by decide, by decide⟩
  · exact ⟨1, by decide, by decide⟩
  · exact ⟨3, by decide, by decide⟩
  · exact ⟨4, by decide, by decide⟩
  · exact ⟨5, by decide, by decide⟩
  · exact ⟨6, by decide, by decide⟩
  · exact ⟨7, by decide, by decide⟩
  · exact ⟨8, by decide, by decide⟩
  · exact ⟨9, by decide, by decide⟩
  · exact ⟨11, by decide, by decide⟩
  · exact ⟨14, by decide, by decide⟩
  · exact ⟨15, by decide, by decide⟩

theorem interfaceFlags_darwin_disjoint (e1 e2 : InterfaceFlags.Enumerator) (h : e1 ≠ e2) :
    Int.land (InterfaceFlags.const darwin e1).rawValue
      (InterfaceFlags.const darwin e2).rawValue = 0 := by
  cases e1 <;> cases e2 <;> first | exact absurd rfl h | decide

/-- C6. The union `up | broadcast` contains `up` and contains `broadcast` (on
every platform) and contains no member whose macro is a single bit other than
the bits of `IFF_UP` and `IFF_BROADCAST`; on the Darwin header values it
contains neither `loopback` nor `multicast`, and `up` and `broadcast` are the
only members set in it. -/
theorem interfaceFlags_up_or_broadcast (p : PlatformHeaders) :
    InterfaceFlags.contains
      (InterfaceFlags.union (InterfaceFlags.const p .up) (InterfaceFlags.const p .broadcast))
      (InterfaceFlags.const p .up) = true ∧
    InterfaceFlags.contains
      (InterfaceFlags.union (InterfaceFlags.const p .up) (InterfaceFlags.const p .broadcast))
      (InterfaceFlags.const p .broadcast) = true ∧
    (∀ (x : InterfaceFlags.Enumerator) (ku kb kx : Nat), ku < 31 → kb < 31 → kx < 31 →
      p.IFF_UP = 2 ^ ku → p.IFF_BROADCAST = 2 ^ kb → x.macroValue p = 2 ^ kx →
      kx ≠ ku → kx ≠ kb →
      InterfaceFlags.contains
        (InterfaceFlags.union (InterfaceFlags.const p .up) (InterfaceFlags.const p .broadcast))
        (InterfaceFlags.const p x) = false) ∧
    InterfaceFlags.contains
      (InterfaceFlags.union (InterfaceFlags.const darwin .up)
        (InterfaceFlags.const darwin .broadcast))
      (InterfaceFlags.const darwin .loopback) = false ∧
    InterfaceFlags.contains
      (InterfaceFlags.union (InterfaceFlags.const darwin .up)
        (InterfaceFlags.const darwin .broadcast))
      (InterfaceFlags.const darwin .multicast) = false ∧
    InterfaceFlags.setFlags darwin
      (InterfaceFlags.union (InterfaceFlags.const darwin .up)
        (InterfaceFlags.const darwin .broadcast)) =
      [InterfaceFlags.Enumerator.up, InterfaceFlags.Enumerator.broadcast] := by
  have hu := interfaceFlags_isInt32_rawValue_const p .up
  have hb := interfaceFlags_isInt32_rawValue_const p .broadcast
  have hr := interfaceFlags_rawValue_union hu hb
  have hur : IsInt32 (InterfaceFlags.union (InterfaceFlags.const p .up)
      (InterfaceFlags.const p .broadcast)).rawValue := by
    rw [hr]; exact isInt32_lor hu hb
  refine ⟨?_, ?_, ?_, by decide, by decide, by decide⟩
  · rw [interfaceFlags_contains_iff hur hu, hr]
    exact int_land_lor_left _ _
  · rw [interfaceFlags_contains_iff hur hb, hr]
    exact int_land_lor_right _ _
  · intro x ku kb kx hku hkb hkx hup hbc hx h1 h2
    have hxr := interfaceFlags_rawValue_const_two_pow p x hkx hx
    have hupr := interfaceFlags_rawValue_const_two_pow p .up hku hup
    have hbcr := interfaceFlags_rawValue_const_two_pow p .broadcast hkb hbc
    rw [Bool.eq_false_iff]
    intro hc
    rw [interfaceFlags_contains_two_pow_iff hur hkx hxr, hr, Int.testBit_lor, hupr, hbcr,
      int_testBit_two_pow, int_testBit_two_pow] at hc
    simp [Ne.symm h1, Ne.symm h2] at hc

/-- Witness for C6 on the Darwin header values, where `IFF_UP`, `IFF_BROADCAST`
and `IFF_LOOPBACK` are the bits 0, 1 and 3: `up | broadcast` does not contain
`loopback`. -/
theorem interfaceFlags_up_or_broadcast_witness :
    InterfaceFlags.contains
      (InterfaceFlags.union (InterfaceFlags.const darwin .up)
        (InterfaceFlags.const darwin .broadcast))
      (InterfaceFlags.const darwin .loopback) = false :=
  (interfaceFlags_up_or_broadcast darwin).2.2.1 .loopback 0 1 3 (by decide) (by decide)
    (by decide) (by decide) (by decide) (by decide) (by decide) (by decide)

/-- C7. For every raw signed 32-bit flags integer `f` and every defined member
`X`, the flags value built from `f` reports `X` as set exactly when the bits of
`X` are set in `f` (`f & X == X`), which for a member whose macro is the single
bit `2^k` is the bit `k` of `f`; so the raw integer with only the bits `ku` and
`km` set reports such a member exactly when its bit is `ku` or `km`.  On the
Darwin header values the raw integer
with only the bits of `up` and `multicast` set reports `up` and `multicast` as
set, `broadcast` and `loopback` as not set, and no other member as set. -/
theorem interfaceFlags_reports_bits (p : PlatformHeaders) (f : Int) (hf : IsInt32 f)
    (x : InterfaceFlags.Enumerator) :
    (InterfaceFlags.contains (InterfaceFlags.ofRaw f) (InterfaceFlags.const p x) = true ↔
      Int.land f (InterfaceFlags.const p x).rawValue = (InterfaceFlags.const p x).rawValue) ∧
    (∀ k : Nat, k < 31 → x.macroValue p = 2 ^ k →
      (InterfaceFlags.contains (InterfaceFlags.ofRaw f) (InterfaceFlags.const p x) = true ↔
        Int.testBit f k = true)) ∧
    (∀ ku km kx : Nat, ku < 31 → km < 31 → kx < 31 → x.macroValue p = 2 ^ kx →
      (InterfaceFlags.contains (InterfaceFlags.ofRaw (Int.lor (2 ^ ku) (2 ^ km)))
          (InterfaceFlags.const p x) = true ↔
        (kx = ku ∨ kx = km))) ∧
    (InterfaceFlags.contains
        (InterfaceFlags.ofRaw (Int.lor darwin.IFF_UP darwin.IFF_MULTICAST))
        (InterfaceFlags.const darwin .up) = true ∧
      InterfaceFlags.contains
        (InterfaceFlags.ofRaw (Int.lor darwin.IFF_UP darwin.IFF_MULTICAST))
        (InterfaceFlags.const darwin .multicast) = true ∧
      InterfaceFlags.contains
        (InterfaceFlags.ofRaw (Int.lor darwin.IFF_UP darwin.IFF_MULTICAST))
        (InterfaceFlags.const darwin .broadcast) = false ∧
      InterfaceFlags.contains
        (InterfaceFlags.ofRaw (Int.lor darwin.IFF_UP darwin.IFF_MULTICAST))
        (InterfaceFlags.const darwin .loopback) = false ∧
      InterfaceFlags.setFlags darwin
        (InterfaceFlags.ofRaw (Int.lor darwin.IFF_UP darwin.IFF_MULTICAST)) =
        [InterfaceFlags.Enumerator.up, InterfaceFlags.Enumerator.multicast]) := by
  have hraw : (InterfaceFlags.ofRaw f).rawValue = f := interfaceFlags_rawValue_ofRaw hf
  have hv : IsInt32 (InterfaceFlags.ofRaw f).rawValue := by rw [hraw]; exact hf
  refine ⟨?_, ?_, ?_, by decide, by decide, by decide, by decide, by decide⟩
  · rw [interfaceFlags_contains_iff hv (interfaceFlags_isInt32_rawValue_const p x), hraw]
  · intro k hk hx
    rw [interfaceFlags_contains_two_pow_iff hv hk
      (interfaceFlags_rawValue_const_two_pow p x hk hx), hraw]
  · intro ku km kx hku hkm hkx hx
    have hg : IsInt32 (Int.lor (2 ^ ku) (2 ^ km)) :=
      isInt32_lor (isInt32_two_pow hku) (isInt32_two_pow hkm)
    have hgraw := interfaceFlags_rawValue_ofRaw hg
    have hgv : IsInt32 (InterfaceFlags.ofRaw (Int.lor (2 ^ ku) (2 ^ km))).rawValue := by
      rw [hgraw]; exact hg
    rw [interfaceFlags_contains_two_pow_iff hgv hkx
      (interfaceFlags_rawValue_const_two_pow p x hkx hx), hgraw, Int.testBit_lor,
      int_testBit_two_pow, int_testBit_two_pow]
    simp only [Bool.or_eq_true, decide_eq_true_eq]
    exact or_congr eq_comm eq_comm

/-- Witness for C7: on the Darwin header values the raw integer `0x8001` has the
bit 15 set and therefore reports `multicast` (whose macro is `2^15`). -/
theorem interfaceFlags_reports_bits_witness :
    IsInt32 0x8001 ∧
    InterfaceFlags.contains (InterfaceFlags.ofRaw 0x8001)
      (InterfaceFlags.const darwin .multicast) = true :=
  ⟨by decide,
   ((interfaceFlags_reports_bits darwin 0x8001 (by decide) .multicast).2.1 15
      (by decide) (by decide)).2 (by decide)⟩

/-- C10. On the Darwin header values each of the twelve defined members is a
non-zero value with exactly one bit set (a power of two below `2^31`), the
bitwise AND of any two different members is 0, and setting one member in a
flags value does not change the result of testing a different one. -/
theorem interfaceFlags_members_single_disjoint_bits :
    (∀ e : InterfaceFlags.Enumerator,
      (InterfaceFlags.const darwin e).rawValue ≠ 0 ∧
      ∃ k : Nat, k < 31 ∧ (InterfaceFlags.const darwin e).rawValue = 2 ^ k) ∧
    (∀ e1 e2 : InterfaceFlags.Enumerator, e1 ≠ e2 →
      Int.land (InterfaceFlags.const darwin e1).rawValue
        (InterfaceFlags.const darwin e2).rawValue = 0) ∧
    (∀ e1 e2 : InterfaceFlags.Enumerator, e1 ≠ e2 →
      ∀ v : InterfaceFlags, IsInt32 v.rawValue →
        InterfaceFlags.contains (InterfaceFlags.union v (InterfaceFlags.const darwin e1))
          (InterfaceFlags.const darwin e2) =
        InterfaceFlags.contains v (InterfaceFlags.const darwin e2)) := by
  refine ⟨?_, interfaceFlags_darwin_disjoint, ?_⟩
  · intro e
    refine ⟨?_, interfaceFlags_darwin_single_bit e⟩
    cases e <;> decide
  · intro e1 e2 hne v hv
    obtain ⟨k1, hk1, h1⟩ := interfaceFlags_darwin_single_bit e1
    obtain ⟨k2, hk2, h2⟩ := interfaceFlags_darwin_single_bit e2
    have hd := interfaceFlags_darwin_disjoint e1 e2 hne
    have hk : k1 ≠ k2 := by
      intro hk
      rw [h1, h2, hk] at hd
      have hself : Int.land ((2 : Int) ^ k2) (2 ^ k2) = 2 ^ k2 :=
        (int_land_two_pow_eq_iff _ k2).2 (by rw [int_testBit_two_pow]; simp)
      rw [hself] at hd
      exact absurd hd (by positivity)
    exact interfaceFlags_contains_union_two_pow hv hk1 hk2 h1 h2 hk

/-- Witness for C10: `up` and `multicast` are different members, their bitwise
AND is 0, and setting `up` in the value `0x8000` leaves the test of `multicast`
unchanged. -/
theorem interfaceFlags_members_single_disjoint_bits_witness :
    Int.land (InterfaceFlags.const darwin .up).rawValue
      (InterfaceFlags.const darwin .multicast).rawValue = 0 ∧
    InterfaceFlags.contains
      (InterfaceFlags.union (InterfaceFlags.ofRaw 0x8000) (InterfaceFlags.const darwin .up))
      (InterfaceFlags.const darwin .multicast) =
    InterfaceFlags.contains (InterfaceFlags.ofRaw 0x8000)
      (InterfaceFlags.const darwin .multicast) :=
  ⟨interfaceFlags_members_single_disjoint_bits.2.1 .up .multicast (by decide),
   interfaceFlags_members_single_disjoint_bits.2.2 .up .multicast (by decide)
     (InterfaceFlags.ofRaw 0x8000) (by decide)⟩

/-! ### Equality and the request selector -/

/-- C8. Equality of `InterfaceType` values, and of `FunctionalType` values, is
equality of the underlying codes: two values compare equal (`==`) if and only
if their codes are equal, two values are the same if and only if their codes
are equal, and two members bound to macros of the same value compare equal
whatever their names. -/
theorem enum_equality_by_code (p : PlatformHeaders) (a b : InterfaceType)
    (c d : FunctionalType) (i j : InterfaceType.Enumerator)
    (e f : FunctionalType.Enumerator) :
    (InterfaceType.beq a b = true ↔ a.rawValue = b.rawValue) ∧
    (a = b ↔ a.rawValue = b.rawValue) ∧
    (FunctionalType.beq c d = true ↔ c.rawValue = d.rawValue) ∧
    (c = d ↔ c.rawValue = d.rawValue) ∧
    (i.macroValue p = j.macroValue p →
      InterfaceType.beq (InterfaceType.const p i) (InterfaceType.const p j) = true) ∧
    (e.macroValue p = f.macroValue p →
      FunctionalType.beq (FunctionalType.const p e) (FunctionalType.const p f) = true) := by
  refine ⟨interfaceType_beq_iff a b, ⟨fun h => by rw [h], interfaceType_eq_of_rawValue_eq⟩,
    functionalType_beq_iff c d, ⟨fun h => by rw [h], functionalType_eq_of_rawValue_eq⟩, ?_, ?_⟩
  · intro h
    rw [interfaceType_beq_iff]
    unfold InterfaceType.const
    rw [h]
  · intro h
    rw [functionalType_beq_iff]
    unfold FunctionalType.const
    rw [h]

/-- Witness for C8 on a header set in which `IFRTYPE_FUNCTIONAL_LAST` has the
value of `IFRTYPE_FUNCTIONAL_MANAGEMENT`: `management` and `last` are two
different names bound to the same value, and they compare equal. -/
theorem enum_equality_by_code_witness :
    FunctionalType.Enumerator.management ≠ FunctionalType.Enumerator.last ∧
    FunctionalType.beq
      (FunctionalType.const { darwin with IFRTYPE_FUNCTIONAL_LAST := 8 } .management)
      (FunctionalType.const { darwin with IFRTYPE_FUNCTIONAL_LAST := 8 } .last) = true :=
  ⟨by decide,
   (enum_equality_by_code { darwin with IFRTYPE_FUNCTIONAL_LAST := 8 }
      (InterfaceType.ofRaw 6) (InterfaceType.ofRaw 6)
      (FunctionalType.ofRaw 8) (FunctionalType.ofRaw 8) .ethernet .ethernet
      .management .last).2.2.2.2.2 (by decide)⟩

/-- C9. `functionalType` is the only member of `IOCTLRequest`, and its numeric
value is the platform's `SIOCGIFFUNCTIONALTYPE` as an `unsigned long`: the
macro's value itself whenever that fits in 64 bits. -/
theorem ioctlRequest_functionalType_value (p : PlatformHeaders) :
    IOCTLRequest.Enumerator.all = [IOCTLRequest.Enumerator.functionalType] ∧
    (IOCTLRequest.const p .functionalType).rawValue = toULong p.SIOCGIFFUNCTIONALTYPE ∧
    (p.SIOCGIFFUNCTIONALTYPE < 2 ^ 64 →
      (IOCTLRequest.const p .functionalType).rawValue = p.SIOCGIFFUNCTIONALTYPE) := by
  refine ⟨rfl, rfl, ?_⟩
  intro h
  exact Nat.mod_eq_of_lt h

/-- Witness for C9 on the Darwin header values, where the selector is
`0xC02069AD`. -/
theorem ioctlRequest_functionalType_value_witness :
    (IOCTLRequest.const darwin .functionalType).rawValue = 0xC02069AD :=
  (ioctlRequest_functionalType_value darwin).2.2 (by decide)

end Interfaces
